import Mathlib

/-!
Shallow embedding of the BusLog core (files `src/buslog/core/analyzer.py` and
`src/buslog/core/workflow_manager.py`) and proofs about it.

Modelling conventions:
* A file-system path is a `String`; a file inside a project tree is given by its
  list of path components relative to the project root (`List String`); the
  project tree itself is the list of its regular files (directories are never
  regular files, matching the `is_file()` guard in the Python code).
* Python strings are `String`/`List Char`; Python string comparison is
  code-point lexicographic, embedded by `lexLe` below (the library order on
  `String` is not kernel-reducible, so we use our own executable comparator).
* `re` and the file system are external to the repository; regex matching is a
  parameter where needed, and file contents are carried in the tree model.
-/

namespace BusLog

/-- Code-point lexicographic order on character lists: this is exactly the
comparison Python uses for `str` (`sorted`, `<`, `<=`). -/
def lexLe : List Char → List Char → Bool
  | [], _ => true
  | _ :: _, [] => false
  | a :: as, b :: bs =>
    if a < b then true
    else if b < a then false
    else lexLe as bs

/-- Python `<=` on strings, via the underlying character lists. -/
def strLe (a b : String) : Bool := lexLe a.data b.data

theorem lexLe_cons_iff (a b : Char) (as bs : List Char) :
    lexLe (a :: as) (b :: bs) = true ↔ a < b ∨ (a = b ∧ lexLe as bs = true) := by
  simp only [lexLe]
  rcases lt_trichotomy a b with h | h | h
  · simp [h]
  · subst h; simp [lt_irrefl]
  · simp [lt_asymm h, h, ne_of_gt h]

theorem lexLe_total : ∀ a b : List Char, lexLe a b = true ∨ lexLe b a = true
  | [], _ => Or.inl rfl
  | _ :: _, [] => Or.inr rfl
  | a :: as, b :: bs => by
    rw [lexLe_cons_iff, lexLe_cons_iff]
    rcases lt_trichotomy a b with h | h | h
    · exact Or.inl (Or.inl h)
    · rcases lexLe_total as bs with ih | ih
      · exact Or.inl (Or.inr ⟨h, ih⟩)
      · exact Or.inr (Or.inr ⟨h.symm, ih⟩)
    · exact Or.inr (Or.inl h)

theorem lexLe_trans : ∀ a b c : List Char,
    lexLe a b = true → lexLe b c = true → lexLe a c = true
  | [], _, _ => by intro _ _; rfl
  | a :: as, [], _ => by intro h _; simp [lexLe] at h
  | _ :: _, _ :: _, [] => by intro _ h; simp [lexLe] at h
  | a :: as, b :: bs, c :: cs => by
    intro h1 h2
    rw [lexLe_cons_iff] at h1 h2 ⊢
    rcases h1 with h1 | ⟨rfl, h1⟩
    · rcases h2 with h2 | ⟨rfl, h2⟩
      · exact Or.inl (h1.trans h2)
      · exact Or.inl h1
    · rcases h2 with h2 | ⟨rfl, h2⟩
      · exact Or.inl h2
      · exact Or.inr ⟨rfl, lexLe_trans as bs cs h1 h2⟩

/-- Substring test on character lists: does `n` occur contiguously in `h`?
This embeds the Python `pattern in path_str` membership test on strings. -/
def containsSub (n : List Char) : List Char → Bool
  | [] => n.isEmpty
  | c :: rest => n.isPrefixOf (c :: rest) || containsSub n rest

theorem isPrefixOf_eq_iff : ∀ n h : List Char,
    n.isPrefixOf h = true ↔ ∃ t, n ++ t = h
  | [], h => by simp [List.isPrefixOf]
  | a :: as, [] => by simp [List.isPrefixOf]
  | a :: as, b :: bs => by
    simp only [List.isPrefixOf, Bool.and_eq_true, beq_iff_eq]
    rw [isPrefixOf_eq_iff as bs]
    constructor
    · rintro ⟨rfl, t, rfl⟩; exact ⟨t, rfl⟩
    · rintro ⟨t, ht⟩
      injection ht with h1 h2
      exact ⟨h1, t, h2⟩

theorem containsSub_iff : ∀ n h : List Char,
    containsSub n h = true ↔ ∃ s t, s ++ n ++ t = h
  | n, [] => by
    simp only [containsSub, List.isEmpty_iff]
    constructor
    · rintro rfl; exact ⟨[], [], rfl⟩
    · rintro ⟨s, t, ht⟩
      rcases List.append_eq_nil.mp ht with ⟨h1, rfl⟩
      exact (List.append_eq_nil.mp h1).2
  | n, c :: rest => by
    simp only [containsSub, Bool.or_eq_true]
    rw [isPrefixOf_eq_iff, containsSub_iff n rest]
    constructor
    · rintro (⟨t, ht⟩ | ⟨s, t, ht⟩)
      · exact ⟨[], t, by simpa using ht⟩
      · exact ⟨c :: s, t, by simp [ht]⟩
    · rintro ⟨s, t, ht⟩
      cases s with
      | nil => exact Or.inl ⟨t, by simpa using ht⟩
      | cons x xs =>
        injection ht with h1 h2
        exact Or.inr ⟨xs, t, h2⟩

/-- The fixed exclusion markers of `CodeAnalyzer._is_excluded`
(analyzer.py lines 215-225). -/
def markers : List String :=
  [".git", ".venv", "venv", "node_modules", "__pycache__", ".pytest_cache",
   "dist", "build", ".business-logic"]

/-- Embedding of `CodeAnalyzer._is_excluded` (analyzer.py lines 206-228): a path
is excluded when any marker occurs as a plain substring of the full path text. -/
def isExcluded (p : String) : Bool :=
  markers.any (fun m => containsSub m.data p.data)

/-- Join path components with the `/` separator, as `str(Path(...))` renders a
relative path. -/
def joinComps : List String → String
  | [] => ""
  | [a] => a
  | a :: b :: t => a ++ "/" ++ joinComps (b :: t)

/-- The full path string of a tree file: project root, separator, components.
This is the `str(path)` that `_is_excluded` receives for a file produced by
`project_root.rglob`. -/
def fullPath (root : String) (comps : List String) : String :=
  root ++ "/" ++ joinComps comps

/-- The retained-file enumeration shared by `_count_files`, `_search_patterns`
and `_search_pattern_in_files`: every regular file under the root whose full
path passes `_is_excluded` (the `for file in self.project_root.rglob("*"): if
file.is_file() and not self._is_excluded(file)` loop). -/
def treeScan (root : String) (tree : List (List String)) : List String :=
  (tree.map (fullPath root)).filter (fun p => !isExcluded p)

theorem containsSub_of_mem_joinComps (m : String) :
    ∀ comps : List String, m ∈ comps →
      containsSub m.data (joinComps comps).data = true
  | [], hm => absurd hm (List.not_mem_nil m)
  | [a], hm => by
    rcases List.mem_singleton.mp hm with rfl
    exact (containsSub_iff _ _).mpr ⟨[], [], by simp [joinComps]⟩
  | a :: b :: t, hm => by
    rcases List.mem_cons.mp hm with rfl | hm2
    · refine (containsSub_iff _ _).mpr ⟨[], ("/" ++ joinComps (b :: t)).data, ?_⟩
      simp [joinComps, String.data_append]
    · have ih := containsSub_of_mem_joinComps m (b :: t) hm2
      rcases (containsSub_iff _ _).mp ih with ⟨s, u, hsu⟩
      refine (containsSub_iff _ _).mpr ⟨(a ++ "/").data ++ s, u, ?_⟩
      simp [joinComps, String.data_append, ← hsu, List.append_assoc]

theorem isExcluded_of_marker_comp (root : String) (comps : List String)
    (h : ∃ m ∈ markers, m ∈ comps) : isExcluded (fullPath root comps) = true := by
  rcases h with ⟨m, hmem, hcomp⟩
  have h1 := containsSub_of_mem_joinComps m comps hcomp
  rcases (containsSub_iff _ _).mp h1 with ⟨s, u, hsu⟩
  refine List.any_eq_true.mpr ⟨m, hmem, ?_⟩
  refine (containsSub_iff _ _).mpr ⟨(root ++ "/").data ++ s, u, ?_⟩
  simp [fullPath, String.data_append, ← hsu, List.append_assoc]

/-- Last component of a relative path, i.e. Python `path.name`. -/
def fileName (comps : List String) : String := comps.getLastD ""

/-- Index of the last occurrence of a character in a list, if any. -/
def lastIdxOf (c : Char) : List Char → Option Nat
  | [] => none
  | a :: rest =>
    match lastIdxOf c rest with
    | some i => some (i + 1)
    | none => if a = c then some 0 else none

/-- Python `Path.suffix`: the substring from the last dot, unless the dot is
the first character or the last character of the name. -/
def fileSuffix (nm : String) : String :=
  match lastIdxOf '.' nm.data with
  | none => ""
  | some i => if 0 < i ∧ i < nm.data.length - 1 then ⟨nm.data.drop i⟩ else ""

/-- Parent directory of a tree file as a path string, i.e. Python
`str(file.parent)` for a file at `root/comps`. -/
def parentPath (root : String) (comps : List String) : String :=
  if comps.length ≤ 1 then root else root ++ "/" ++ joinComps comps.dropLast

/-- Lower-case an ASCII string, as Python `str.lower` does on ASCII text. -/
def lowerStr (s : String) : String := ⟨s.data.map Char.toLower⟩

/-- the Python `"test" in s.lower()` test used by `_count_files`. -/
def containsTest (s : String) : Bool := containsSub "test".data (lowerStr s).data

/-- Suffixes counted as source files by `_count_files` (analyzer.py line 112). -/
def sourceExts : List String := [".py", ".js", ".ts", ".java", ".go", ".rs"]

/-- Suffixes counted as config files by `_count_files` (analyzer.py line 118). -/
def configExts : List String := [".json", ".yaml", ".yml", ".toml", ".ini", ".env"]

/-- File counters of `CodeAnalyzer._count_files`. -/
structure FileCounts where
  total : Nat
  source : Nat
  test : Nat
  config : Nat
deriving DecidableEq, Repr

/-- One loop iteration of `CodeAnalyzer._count_files` (analyzer.py lines
108-119): skip excluded files, then bump the categories. -/
def countStep (root : String) (c : FileCounts) (comps : List String) : FileCounts :=
  if isExcluded (fullPath root comps) then c
  else
    { total := c.total + 1,
      source := c.source + (if fileSuffix (fileName comps) ∈ sourceExts then 1 else 0),
      test := c.test +
        (if containsTest (fileName comps) || containsTest (parentPath root comps)
         then 1 else 0),
      config := c.config + (if fileSuffix (fileName comps) ∈ configExts then 1 else 0) }

/-- Embedding of `CodeAnalyzer._count_files` (analyzer.py lines 95-121) over the
regular files of the project tree. -/
def countFiles (root : String) (tree : List (List String)) : FileCounts :=
  tree.foldl (countStep root) ⟨0, 0, 0, 0⟩

instance (suffix nm : List Char) : Decidable (∃ t, t ++ suffix = nm) :=
  decidable_of_iff (suffix.reverse.isPrefixOf nm.reverse = true) (by
    rw [isPrefixOf_eq_iff]
    constructor
    · rintro ⟨t, ht⟩
      refine ⟨t.reverse, ?_⟩
      have := congrArg List.reverse ht
      simpa using this
    · rintro ⟨t, rfl⟩
      exact ⟨t.reverse, by simp⟩)

/-- Python `name.endswith(suffix)`. -/
def endsWithB (suffix nm : String) : Bool :=
  decide (∃ t, t ++ suffix.data = nm.data)

/-- The file list `list(self.project_root.rglob(f"*{ext}"))` built by the
language-detection loops (analyzer.py line 62, workflow_manager.py line 177):
every regular file of the tree whose name ends with the extension, with no
exclusion filtering, as full root-prefixed paths. -/
def rglobExt (root ext : String) (tree : List (List String)) : List String :=
  (tree.filter (fun comps => endsWithB ext (fileName comps))).map (fullPath root)

/-- Extension table of `CodeAnalyzer._detect_languages` (analyzer.py lines
41-57), in declaration order. -/
def azTable : List (String × String) :=
  [(".py", "Python"), (".js", "JavaScript"), (".ts", "TypeScript"),
   (".jsx", "React"), (".tsx", "React/TypeScript"), (".java", "Java"),
   (".go", "Go"), (".rs", "Rust"), (".rb", "Ruby"), (".php", "PHP"),
   (".cs", "C#"), (".cpp", "C++"), (".c", "C"), (".swift", "Swift"),
   (".kt", "Kotlin")]

/-- Descending-by-count comparison used to rank detected languages; non-strict
so that insertion sort is stable on ties, matching the stable Python `sorted`
with `reverse=True`. -/
def countGe (a b : String × Nat) : Prop := b.2 ≤ a.2

instance : DecidableRel countGe := fun a b => inferInstanceAs (Decidable (b.2 ≤ a.2))

instance : IsTotal (String × Nat) countGe := ⟨fun a b => Nat.le_total b.2 a.2⟩

instance : IsTrans (String × Nat) countGe :=
  ⟨fun _ _ _ h1 h2 => Nat.le_trans h2 h1⟩

/-- Embedding of `CodeAnalyzer._detect_languages` (analyzer.py lines 35-66):
count per-extension matches with `rglob` (no exclusion filter), keep the
non-empty ones in table order, stably sort by count descending, return the
language labels. -/
def azDetect (root : String) (tree : List (List String)) : List String :=
  let detected := azTable.filterMap (fun el =>
    let n := (rglobExt root el.1 tree).length
    if n ≠ 0 then some (el.2, n) else none)
  (List.insertionSort countGe detected).map Prod.fst

/-- C10: exclusion is plain substring containment over the whole path text: a
path is excluded iff one of the nine fixed marker strings occurs anywhere in
it; consequently a file named `distance.py` is excluded because its name
contains `dist`, and when the path of the scanned root itself contains a marker (here
a root named `home/user/build`) every file of the tree is excluded. -/
theorem c10_substring_exclusion :
    (∀ p : String, isExcluded p = true ↔
      ∃ m ∈ markers, ∃ s t, s ++ m.data ++ t = p.data) ∧
    isExcluded "proj/distance.py" = true ∧
    (∀ comps : List String, isExcluded (fullPath "home/user/build" comps) = true) := by
  refine ⟨?_, by decide, ?_⟩
  · intro p
    rw [isExcluded, List.any_eq_true]
    constructor
    · rintro ⟨m, hm, hc⟩; exact ⟨m, hm, (containsSub_iff _ _).mp hc⟩
    · rintro ⟨m, hm, hst⟩; exact ⟨m, hm, (containsSub_iff _ _).mpr hst⟩
  · intro comps
    refine List.any_eq_true.mpr ⟨"build", by decide, ?_⟩
    refine (containsSub_iff _ _).mpr
      ⟨"home/user/".data, ("/" ++ joinComps comps).data, ?_⟩
    have h : ("home/user/build" : String).data = "home/user/".data ++ "build".data := by
      decide
    simp [fullPath, String.data_append, h, List.append_assoc]

/-- C7: on the tree with files `a.py`, `b.js` and `tests/c.py` under a root
free of markers, `_count_files` reports total 3, source 3, test 1, config 0,
and `_detect_languages` ranks the languages Python (2 files) before
JavaScript (1 file). -/
theorem c7_concrete_scan :
    countFiles "proj" [["a.py"], ["b.js"], ["tests", "c.py"]] = ⟨3, 3, 1, 0⟩ ∧
    azDetect "proj" [["a.py"], ["b.js"], ["tests", "c.py"]] =
      ["Python", "JavaScript"] := by
  decide

/-- C3 counterexample: the language-detection pass builds its file lists with
`rglob` and no exclusion filter (analyzer.py line 62), so it returns the file
`.git/a.py`, which lies inside a marker-named directory and is itself
excluded by `_is_excluded`; its language is nevertheless counted. -/
theorem c3_counterexample :
    rglobExt "proj" ".py" [[".git", "a.py"], ["b.py"]] =
      ["proj/.git/a.py", "proj/b.py"] ∧
    isExcluded "proj/.git/a.py" = true ∧
    azDetect "proj" [[".git", "a.py"]] = ["Python"] := by
  decide

/-- C3 (amended): the retained-file enumeration used for file counting and
content searching never returns a file lying inside a marker-named directory,
and every path it returns is the scanned root extended by the relative
components of the file; the language-detection pass, by contrast, applies no exclusion. -/
theorem c3_retained_scan_exclusion (root : String) (tree : List (List String)) :
    (∀ comps ∈ tree, (∃ m ∈ markers, m ∈ comps) →
      fullPath root comps ∉ treeScan root tree) ∧
    (∀ p ∈ treeScan root tree, ∃ comps ∈ tree, p = root ++ "/" ++ joinComps comps) := by
  constructor
  · intro comps _ hex hmemScan
    have hexc := isExcluded_of_marker_comp root comps hex
    have h2 := (List.mem_filter.mp hmemScan).2
    simp [hexc] at h2
  · intro p hp
    have h1 := (List.mem_filter.mp hp).1
    rcases List.mem_map.mp h1 with ⟨comps, hc, rfl⟩
    exact ⟨comps, hc, rfl⟩

/-- C3 witness: on a concrete tree, the file `.git/a.py` sits inside a
marker-named directory and is indeed absent from the retained-file scan. -/
theorem c3_witness :
    fullPath "proj" [".git", "a.py"] ∉ treeScan "proj" [[".git", "a.py"], ["b.py"]] :=
  (c3_retained_scan_exclusion "proj" [[".git", "a.py"], ["b.py"]]).1
    [".git", "a.py"] (by decide) ⟨".git", by decide, by decide⟩

/-- A regular file of the project tree together with its textual content
(the model of a file that `read_text` decodes successfully). -/
structure SFile where
  path : List String
  content : String
deriving DecidableEq, Repr

/-- One entry-point record appended by `CodeAnalyzer._find_entry_points`:
category label, path relative to the project root, matched text. -/
structure EntryPoint where
  kind : String
  file : String
  matched : String
deriving DecidableEq, Repr

/-- The retained files a content scan visits: regular files passing
`_is_excluded` (analyzer.py lines 195-196). -/
def retainedFiles (root : String) (fs : List SFile) : List SFile :=
  fs.filter (fun f => !isExcluded (fullPath root f.path))

/-- Embedding of `CodeAnalyzer._search_pattern_in_files` (analyzer.py lines
184-204), parametric in the external regex engine `m`: for each retained file,
`m pat content` stands for the list of texts that `re.finditer(pat, content)`
yields, and every one becomes a `(file, match)` pair. -/
def searchPatternInFiles (m : String → String → List String) (pat root : String)
    (fs : List SFile) : List (SFile × String) :=
  ((retainedFiles root fs).map (fun f => (m pat f.content).map (fun s => (f, s)))).flatten

/-- Build one entry-point record from a `(file, match)` pair, as the loop body
of `_find_entry_points` does (`str(file.relative_to(self.project_root))` is the
joined relative components). -/
def mkEntry (k : String) (fm : SFile × String) : EntryPoint :=
  ⟨k, joinComps fm.1.path, fm.2⟩

/-- Embedding of `CodeAnalyzer._find_entry_points` (analyzer.py lines 123-162)
with the pattern-group table as a parameter: for every group, for every
pattern, every `(file, match)` pair becomes one entry-point record. -/
def findEntryPointsWith (pats : List (String × List String))
    (m : String → String → List String) (root : String) (fs : List SFile) :
    List EntryPoint :=
  (pats.map (fun g =>
    (g.2.map (fun p =>
      (searchPatternInFiles m p root fs).map (mkEntry g.1))).flatten)).flatten

/-- The hardcoded pattern-group table of `_find_entry_points` (analyzer.py
lines 132-148), in declaration order; the strings are the regex sources
handed to `re.finditer`. -/
def entryPatterns : List (String × List String) :=
  [("API Endpoint",
    ["@app\\.(get|post|put|delete|patch)\\([\x27\"]([^\x27\"]+)",
     "@router\\.(get|post|put|delete|patch)\\([\x27\"]([^\x27\"]+)",
     "app\\.(get|post|put|delete|patch)\\([\x27\"]([^\x27\"]+)"]),
   ("CLI Command",
    ["@click\\.command\\(\\)", "@typer\\.command\\(\\)", "def main\\("]),
   ("Event Handler",
    ["@event\\.", "\\.on\\([\x27\"]([^\x27\"]+)",
     "addEventListener\\([\x27\"]([^\x27\"]+)"])]

/-- `_find_entry_points` itself: the hardcoded table over the external
matcher. -/
def findEntryPoints (m : String → String → List String) (root : String)
    (fs : List SFile) : List EntryPoint :=
  findEntryPointsWith entryPatterns m root fs

/-- Left-to-right, non-overlapping literal search (`fuel` bounds the scan and
is instantiated with the haystack length, which always suffices). -/
def literalFindAux (n : List Char) : Nat → List Char → List (List Char)
  | 0, _ => []
  | _ + 1, [] => []
  | fuel + 1, c :: rest =>
    if n.isPrefixOf (c :: rest) then
      n :: literalFindAux n fuel (List.drop (n.length - 1) rest)
    else
      literalFindAux n fuel rest

/-- All non-overlapping occurrences of a literal needle, scanning left to
right: exactly how `re.finditer` enumerates matches of a regex that denotes a
fixed literal string. -/
def literalFind (n hay : List Char) : List (List Char) :=
  if n.isEmpty then [] else literalFindAux n hay.length hay

/-- Concrete stand-in for `re.finditer` on the pattern `def main\(` of the
`CLI Command` group: that regex matches exactly the literal text `def main(`,
so its finditer enumeration is the literal search above. -/
def cliMainMatcher (pat content : String) : List String :=
  if pat = "def main\\(" then
    (literalFind "def main(".data content.data).map (fun l => ⟨l⟩)
  else []

/-- A single pattern group holding the single pattern `def main\(`. -/
def exPats1 : List (String × List String) := [("CLI Command", ["def main\\("])]

/-- A file whose content contains the pattern twice. -/
def exFile1 : SFile :=
  ⟨["x.py"], "def main(a):\n    return 1\ndef main(b):\n    return 2"⟩

/-- A file whose content contains the pattern once. -/
def exFile2 : SFile := ⟨["y.py"], "def main():\n    return 0"⟩

/-- C1 counterexample: enumeration over two files, one containing the pattern
twice and one containing it once, for a single pattern group, returns 3
entry-point records, not the 2 the claim asserts: there is no per
`(pattern-group, file)` deduplication. -/
theorem c1_counterexample :
    (findEntryPointsWith exPats1 cliMainMatcher "proj" [exFile1, exFile2]).length = 3 ∧
    (findEntryPointsWith exPats1 cliMainMatcher "proj" [exFile1, exFile2]).length ≠ 2 := by
  decide

/-- C1 (amended): enumeration keeps every match occurrence as its own record:
for every pattern table, matcher, root and tree, the number of entry-point
records is the sum, over every group, pattern and retained file, of the number
of matches the matcher yields in that file; nothing is discarded. -/
theorem length_searchPatternInFiles (m : String → String → List String)
    (pat root : String) (fs : List SFile) :
    (searchPatternInFiles m pat root fs).length =
      ((retainedFiles root fs).map (fun f => (m pat f.content).length)).sum := by
  rw [searchPatternInFiles, List.length_flatten, List.map_map]
  have hF : (List.length ∘ fun f : SFile => List.map (fun s => (f, s)) (m pat f.content))
      = fun f => (m pat f.content).length := by
    funext f
    simp [Function.comp, List.length_map]
  rw [hF]

theorem c1_every_occurrence_kept (pats : List (String × List String))
    (m : String → String → List String) (root : String) (fs : List SFile) :
    (findEntryPointsWith pats m root fs).length =
      (pats.map (fun g => (g.2.map (fun p =>
        ((retainedFiles root fs).map (fun f => (m p f.content).length)).sum)).sum)).sum := by
  rw [findEntryPointsWith, List.length_flatten, List.map_map]
  have hG : (List.length ∘ fun g : String × List String =>
      (g.2.map (fun p =>
        (searchPatternInFiles m p root fs).map (mkEntry g.1))).flatten)
      = fun g => (g.2.map (fun p =>
          ((retainedFiles root fs).map (fun f => (m p f.content).length)).sum)).sum := by
    funext g
    rw [Function.comp_apply, List.length_flatten, List.map_map]
    have hP : (List.length ∘ fun p =>
        (searchPatternInFiles m p root fs).map (mkEntry g.1))
        = fun p => ((retainedFiles root fs).map (fun f => (m p f.content).length)).sum := by
      funext p
      rw [Function.comp_apply, List.length_map, length_searchPatternInFiles]
    rw [hP]
  rw [hG]

/-- The `settings` block written by `initialize` (workflow_manager.py lines
64-69). -/
structure Settings where
  auto_detect : Bool
  mermaid_theme : String
  show_line_numbers : Bool
  collapse_by_default : Bool
deriving DecidableEq, Repr

/-- The `metadata` block written by `initialize` (workflow_manager.py line 70). -/
structure ConfigMetadata where
  repository : String
  main_branch : String
  authors : List String
deriving DecidableEq, Repr

/-- The parsed contents of `config.json` (the record `initialize` writes,
workflow_manager.py lines 57-71). The on-disk file is its pretty-printed JSON
rendering; since every store write serializes exactly this record, an
unchanged record means unchanged bytes. -/
structure Config where
  project_name : String
  version : String
  created_at : String
  languages : List String
  frameworks : List String
  workflows : List String
  settings : Settings
  metadata : ConfigMetadata
deriving DecidableEq, Repr

/-- A workflow document file under `workflows/`. Modelled from the spec: the
template `templates/workflow.md` instantiated by `add_workflow` is not under
`src/`; per spec §4.3 the instantiated document carries the title-cased name,
the creation and modification timestamps and an empty author, kept here as
fields alongside the identifier (the file stem). -/
structure WDoc where
  stem : String
  title : String
  created : String
  modified : String
  author : String
deriving DecidableEq, Repr

/-- The durable state of one project root: the flags whether the store folder,
the workflows folder and `index.md` exist, the parsed `config.json` (none when
the file is absent), and the document files under `workflows/` in directory
order. -/
structure Store where
  buslogDirExists : Bool
  workflowsDirExists : Bool
  config : Option Config
  indexExists : Bool
  docs : List WDoc
deriving DecidableEq, Repr

/-- Store-level failures (spec §7 names; the source raises `FileExistsError`
for the first two and propagates I/O errors for the third). -/
inductive StoreErr where
  | alreadyInitialized
  | docAlreadyExists (id : String)
  | ioError
deriving DecidableEq, Repr

/-- Extension table of `WorkflowManager._detect_languages`
(workflow_manager.py lines 160-172), in declaration order: four entries fewer
than the analyzer table. -/
def wmTable : List (String × String) :=
  [(".py", "Python"), (".js", "JavaScript"), (".ts", "TypeScript"),
   (".java", "Java"), (".go", "Go"), (".rs", "Rust"), (".rb", "Ruby"),
   (".php", "PHP"), (".cs", "C#"), (".cpp", "C++"), (".c", "C")]

/-- Python string `<=` as a relation, for sorting. -/
def strRel (a b : String) : Prop := strLe a b = true

instance : DecidableRel strRel := fun a b =>
  inferInstanceAs (Decidable (strLe a b = true))

instance : IsTotal String strRel := ⟨fun a b => lexLe_total a.data b.data⟩

instance : IsTrans String strRel := ⟨fun a b c => lexLe_trans a.data b.data c.data⟩

/-- Embedding of `WorkflowManager._detect_languages` (workflow_manager.py
lines 154-180): collect into a set the labels whose extension matches some
file under the root (no exclusion filter), and return them sorted ascending.
The Python set is modelled as `dedup` of the candidates in table order; sorting
distinct strings has a unique result, so this equals the Python
`sorted(detected)`. -/
def wmDetect (root : String) (tree : List (List String)) : List String :=
  List.insertionSort strRel
    ((wmTable.filterMap (fun el =>
      if (rglobExt root el.1 tree).length ≠ 0 then some el.2 else none)).dedup)

/-- Last path component, Python `Path(root).name`. -/
def baseName (r : String) : String :=
  match lastIdxOf '/' r.data with
  | none => r
  | some i => ⟨r.data.drop (i + 1)⟩

/-- Embedding of `WorkflowManager.is_initialized` (workflow_manager.py lines
32-36). -/
def is_initialized (s : Store) : Bool :=
  s.buslogDirExists && s.config.isSome && s.workflowsDirExists

/-- Embedding of `WorkflowManager.initialize` (workflow_manager.py lines
38-79); the Lean name differs because the source name is reserved here. The
result is the operation outcome paired with the post-call state: on the error
path the function raises before writing anything, so the state comes back
unchanged; on success the folders exist, a fresh config record is written
wholesale, and the document files are untouched (`mkdir(exist_ok=True)`
touches no file). -/
def initStore (projectName : Option String) (force : Bool) (root now : String)
    (tree : List (List String)) (s : Store) : Except StoreErr Unit × Store :=
  if is_initialized s && !force then (.error .alreadyInitialized, s)
  else
    let cfg : Config :=
      { project_name := projectName.getD (baseName root), version := "0.1.0",
        created_at := now, languages := wmDetect root tree, frameworks := [],
        workflows := [], settings := ⟨false, "default", true, false⟩,
        metadata := ⟨"", "main", []⟩ }
    let st : Store :=
      { buslogDirExists := true, workflowsDirExists := true, config := some cfg,
        indexExists := true, docs := s.docs }
    (.ok (), st)

/-- Identifier derivation of `add_workflow` (workflow_manager.py line 94):
lower-case the name, then replace spaces with hyphens. -/
def normalizeName (nm : String) : String :=
  ⟨nm.data.map (fun c => if c.toLower = ' ' then '-' else c.toLower)⟩

/-- Python `str.title()` on ASCII text: a cased letter that starts the string
or follows a non-letter is upper-cased, a letter following a letter is
lower-cased, anything else passes through (the boolean carries whether the
previous character was a letter). -/
def titleAux : Bool → List Char → List Char
  | _, [] => []
  | prev, c :: cs =>
    if c.isAlpha then
      (if prev then c.toLower else c.toUpper) :: titleAux true cs
    else
      c :: titleAux false cs

/-- Python `s.title()`. -/
def pyTitle (s : String) : String := ⟨titleAux false s.data⟩

/-- Python `s.replace("-", " ")`. -/
def dashToSpace (s : String) : String :=
  ⟨s.data.map (fun c => if c = '-' then ' ' else c)⟩

/-- Embedding of `WorkflowManager._add_workflow_to_config`
(workflow_manager.py lines 203-216): read the config, append the identifier
unless already present, write the whole record back. When `config.json` is
absent the Python writes a dict holding only the `workflows` key; that file is
modelled as a record whose other fields are empty. -/
def addWorkflowToConfig (safe : String) (s : Store) : Store :=
  match s.config with
  | some c =>
    if safe ∈ c.workflows then s
    else { s with config := some { c with workflows := c.workflows ++ [safe] } }
  | none =>
    let c0 : Config :=
      { project_name := "", version := "", created_at := "", languages := [],
        frameworks := [], workflows := [safe],
        settings := ⟨false, "", false, false⟩, metadata := ⟨"", "", []⟩ }
    { s with config := some c0 }

/-- Embedding of `WorkflowManager.add_workflow` (workflow_manager.py lines
81-120): derive the identifier, fail first if a document with that stem exists
(state untouched), fail with an I/O error if the workflows folder is missing
(the `write_text` would raise), otherwise persist the template-instantiated
document and update the config index. -/
def add_workflow (nm now : String) (s : Store) : Except StoreErr String × Store :=
  let safe := normalizeName nm
  if s.docs.any (fun d => d.stem == safe) then (.error (.docAlreadyExists safe), s)
  else if !s.workflowsDirExists then (.error .ioError, s)
  else
    let doc : WDoc := ⟨safe, pyTitle (dashToSpace nm), now, now, ""⟩
    (.ok safe, addWorkflowToConfig safe { s with docs := s.docs ++ [doc] })

/-- One record of `list_workflows` output: display name and file name. The
source record also carries `path`, which is the fixed workflows folder joined
with `file` and is omitted here. -/
structure WRec where
  name : String
  file : String
deriving DecidableEq, Repr

/-- Ordering of `list_workflows`: Python `sorted(workflows, key=name)`,
i.e. string comparison of display names. -/
def wrecRel (a b : WRec) : Prop := strLe a.name b.name = true

instance : DecidableRel wrecRel := fun a b =>
  inferInstanceAs (Decidable (strLe a.name b.name = true))

instance : IsTotal WRec wrecRel := ⟨fun a b => lexLe_total a.name.data b.name.data⟩

instance : IsTrans WRec wrecRel :=
  ⟨fun a b c => lexLe_trans a.name.data b.name.data c.name.data⟩

/-- The record `list_workflows` derives from one document file. -/
def mkWRec (d : WDoc) : WRec :=
  ⟨pyTitle (dashToSpace d.stem), d.stem ++ ".md"⟩

/-- Embedding of `WorkflowManager.list_workflows` (workflow_manager.py lines
122-141): empty when the workflows folder is missing, otherwise one record per
`.md` document — built from the file stem alone, the config is never read —
sorted by display name with the stable Python `sorted`. -/
def list_workflows (s : Store) : List WRec :=
  if !s.workflowsDirExists then []
  else List.insertionSort wrecRel (s.docs.map mkWRec)

/-- The `workflows` array of the current config, `[]` when `config.json` is
absent (`config.get("workflows", [])` after `get_config`). -/
def configWorkflows (s : Store) : List String :=
  (s.config.map Config.workflows).getD []

/-- A project root with no store present at all. -/
def emptyStore : Store := ⟨false, false, none, false, []⟩

/-- C2 counterexample: over the tree holding `a.py` and `b.js`, a successful
initialize writes `languages = ["JavaScript", "Python"]` (the manager running its own
alphabetical pass over its shorter table) while the scanner
language-detection pass ranks `["Python", "JavaScript"]` (count-descending,
table order on the tie), so the written array is not the scanner list. -/
theorem c2_counterexample :
    ((initStore none false "proj" "t0" [["a.py"], ["b.js"]] emptyStore).2.config).map
      Config.languages = some ["JavaScript", "Python"] ∧
    azDetect "proj" [["a.py"], ["b.js"]] = ["Python", "JavaScript"] ∧
    ((initStore none false "proj" "t0" [["a.py"], ["b.js"]] emptyStore).2.config).map
      Config.languages ≠ some (azDetect "proj" [["a.py"], ["b.js"]]) := by
  decide

/-- C2 (amended): the `languages` array a successful initialize writes is the
detection pass of the workflow manager itself, not of the scanner: the distinct labels
of its eleven-entry extension table that match some file under the root,
sorted ascending by plain string order. -/
theorem c2_languages_characterized (pn : Option String) (force : Bool)
    (root now : String) (tree : List (List String)) (s : Store)
    (h : (initStore pn force root now tree s).1 = .ok ()) :
    ∃ c, (initStore pn force root now tree s).2.config = some c ∧
      c.languages = wmDetect root tree ∧
      List.Sorted strRel c.languages ∧
      (∀ l, l ∈ c.languages ↔ ∃ e, (e, l) ∈ wmTable ∧ rglobExt root e tree ≠ []) := by
  by_cases hg : (is_initialized s && !force) = true
  · rw [initStore, if_pos hg] at h
    exact absurd h (by simp)
  · rw [initStore, if_neg hg]
    refine ⟨_, rfl, rfl, ?_, ?_⟩
    · exact List.sorted_insertionSort strRel _
    · intro l
      show l ∈ wmDetect root tree ↔ _
      unfold wmDetect
      rw [List.mem_insertionSort, List.mem_dedup, List.mem_filterMap]
      constructor
      · rintro ⟨⟨e, lg⟩, hmem, hif⟩
        by_cases hne : (rglobExt root e tree).length ≠ 0
        · rw [if_pos hne] at hif
          injection hif with h2
          subst h2
          exact ⟨e, hmem, fun hnil => hne (by rw [hnil]; rfl)⟩
        · rw [if_neg hne] at hif
          cases hif
      · rintro ⟨e, hmem, hne⟩
        refine ⟨(e, l), hmem, if_pos ?_⟩
        intro h0
        exact hne (List.length_eq_zero.mp h0)

/-- C2 witness: the amended characterization evaluated on the two-file tree. -/
theorem c2_witness :
    ∃ c,
      (initStore none false "proj" "t0" [["a.py"], ["b.js"]] emptyStore).2.config
        = some c ∧
      c.languages = wmDetect "proj" [["a.py"], ["b.js"]] ∧
      List.Sorted strRel c.languages ∧
      (∀ l, l ∈ c.languages ↔
        ∃ e, (e, l) ∈ wmTable ∧ rglobExt "proj" e [["a.py"], ["b.js"]] ≠ []) :=
  c2_languages_characterized none false "proj" "t0" [["a.py"], ["b.js"]]
    emptyStore rfl

/-- An initialized store holding one workflow document and a matching config
index entry. -/
def exCfg : Config :=
  ⟨"proj", "0.1.0", "t0", ["Python"], [], ["legacy-flow"],
   ⟨false, "default", true, false⟩, ⟨"", "main", []⟩⟩

/-- Concrete initialized store with one document on disk. -/
def exStoreInit : Store :=
  ⟨true, true, some exCfg, true, [⟨"legacy-flow", "Legacy Flow", "t0", "t0", ""⟩]⟩

/-- C4: re-initializing with force on an initialized store that holds workflow
document files succeeds, writes a fresh config whose workflows index is empty
(prior entries are dropped, nothing is reconciled with the files on disk), and
leaves every document file under workflows/ exactly as it was. -/
theorem c4_force_reinit (pn : Option String) (root now : String)
    (tree : List (List String)) (s : Store) (hinit : is_initialized s = true)
    (hdocs : s.docs ≠ []) :
    (initStore pn true root now tree s).1 = .ok () ∧
    (∃ c, (initStore pn true root now tree s).2.config = some c ∧
      c.workflows = []) ∧
    (initStore pn true root now tree s).2.docs = s.docs := by
  rw [initStore, if_neg (by simp)]
  exact ⟨rfl, ⟨_, rfl, rfl⟩, rfl⟩

/-- C4 witness: force re-init on the concrete initialized store. -/
theorem c4_witness :
    (initStore none true "proj" "t1" [] exStoreInit).1 = .ok () ∧
    (∃ c, (initStore none true "proj" "t1" [] exStoreInit).2.config = some c ∧
      c.workflows = []) ∧
    (initStore none true "proj" "t1" [] exStoreInit).2.docs = exStoreInit.docs :=
  c4_force_reinit none "proj" "t1" [] exStoreInit rfl (by simp [exStoreInit])

/-- C9: initialize without force on an already-initialized store always fails
with the already-initialized error, and the failed call returns the state — in
particular the config file — untouched, so config.json stays byte-identical. -/
theorem c9_reinit_without_force (pn : Option String) (root now : String)
    (tree : List (List String)) (s : Store) (h : is_initialized s = true) :
    initStore pn false root now tree s = (.error .alreadyInitialized, s) ∧
    (initStore pn false root now tree s).2.config = s.config := by
  have h1 : initStore pn false root now tree s = (.error .alreadyInitialized, s) := by
    rw [initStore, if_pos (by simp [h])]
  exact ⟨h1, by rw [h1]⟩

/-- C9 witness: re-init without force on the concrete initialized store. -/
theorem c9_witness :
    initStore none false "proj" "t1" [] exStoreInit
      = (.error .alreadyInitialized, exStoreInit) ∧
    (initStore none false "proj" "t1" [] exStoreInit).2.config
      = exStoreInit.config :=
  c9_reinit_without_force none "proj" "t1" [] exStoreInit rfl

/-- Case-insensitive string comparison: compare after lower-casing both
sides. -/
def ciLe (a b : String) : Bool := strLe (lowerStr a) (lowerStr b)

/-- Boolean check that a record list is sorted ascending by display name under
case-insensitive comparison. -/
def ciSortedB : List WRec → Bool
  | [] => true
  | [_] => true
  | a :: b :: t => ciLe a.name b.name && ciSortedB (b :: t)

/-- A store whose document folder holds the files `b.md` and `_.md` (both
stems are reachable through add_workflow). Its config file is absent, which
also exhibits that list_workflows never reads the config. -/
def exStore5 : Store :=
  ⟨true, true, none, false, [⟨"b", "", "", "", ""⟩, ⟨"_", "", "", "", ""⟩]⟩

/-- C5 counterexample: on the store holding documents `b.md` and `_.md`,
list_workflows returns the display titles in the order `["B", "_"]` — the
plain (case-sensitive) string order — which is not ascending under
case-insensitive comparison, since lower-casing gives "b" > "_". -/
theorem c5_counterexample :
    (list_workflows exStore5).map WRec.name = ["B", "_"] ∧
    ciSortedB (list_workflows exStore5) = false := by
  decide

/-- C5 (amended): list_workflows enumerates its records directly from the
documents folder — its output is a permutation of one record per document
file, built from the file stems alone, with the config never consulted — and
returns them sorted by display title ascending under the plain
case-sensitive Python string order. -/
theorem c5_sorted_case_sensitive (s : Store) :
    List.Sorted wrecRel (list_workflows s) ∧
    (s.workflowsDirExists = true →
      (list_workflows s).Perm (s.docs.map mkWRec)) := by
  constructor
  · cases hb : s.workflowsDirExists with
    | false => simp [list_workflows, hb]
    | true =>
      simp only [list_workflows, hb, Bool.not_true, Bool.false_eq_true, if_false]
      exact List.sorted_insertionSort wrecRel _
  · intro hb
    simp only [list_workflows, hb, Bool.not_true, Bool.false_eq_true, if_false]
    exact List.perm_insertionSort wrecRel _

/-- C5 witness: the amended statement evaluated on the concrete store. -/
theorem c5_witness :
    List.Sorted wrecRel (list_workflows exStore5) ∧
    (list_workflows exStore5).Perm (exStore5.docs.map mkWRec) :=
  ⟨(c5_sorted_case_sensitive exStore5).1, (c5_sorted_case_sensitive exStore5).2 rfl⟩

theorem addWorkflowToConfig_docs (safe : String) (t : Store) :
    (addWorkflowToConfig safe t).docs = t.docs := by
  cases hc : t.config with
  | none => simp [addWorkflowToConfig, hc]
  | some c => by_cases h : safe ∈ c.workflows <;> simp [addWorkflowToConfig, hc, h]

theorem addWorkflowToConfig_wdir (safe : String) (t : Store) :
    (addWorkflowToConfig safe t).workflowsDirExists = t.workflowsDirExists := by
  cases hc : t.config with
  | none => simp [addWorkflowToConfig, hc]
  | some c => by_cases h : safe ∈ c.workflows <;> simp [addWorkflowToConfig, hc, h]

theorem configWorkflows_addWorkflowToConfig (safe : String) (t : Store) :
    configWorkflows (addWorkflowToConfig safe t) =
      if safe ∈ configWorkflows t then configWorkflows t
      else configWorkflows t ++ [safe] := by
  cases hc : t.config with
  | none => simp [addWorkflowToConfig, configWorkflows, hc]
  | some c => by_cases h : safe ∈ c.workflows <;>
      simp [addWorkflowToConfig, configWorkflows, hc, h]

theorem strAppend_cancel {a b c : String} (h : a ++ c = b ++ c) : a = b := by
  apply String.ext
  have hd := congrArg String.data h
  rw [String.data_append, String.data_append] at hd
  exact List.append_cancel_right hd

/-- C6: whenever add_workflow succeeds on an initialized store — the appends done by the store
itself never duplicate an index entry, so the pre-state carries the
derived identifier at most once in the config index — the identifier
afterwards names exactly one file in the list_workflows output and occurs
exactly once in the workflows array of the config. -/
theorem c6_identifier_exactly_once (s : Store) (nm now : String)
    (hdir : s.workflowsDirExists = true)
    (hnew : ∀ d ∈ s.docs, d.stem ≠ normalizeName nm)
    (hcount : (configWorkflows s).count (normalizeName nm) ≤ 1) :
    (add_workflow nm now s).1 = .ok (normalizeName nm) ∧
    (list_workflows (add_workflow nm now s).2).countP
      (fun w => w.file == normalizeName nm ++ ".md") = 1 ∧
    (configWorkflows (add_workflow nm now s).2).count (normalizeName nm) = 1 := by
  have hany : s.docs.any (fun d => d.stem == normalizeName nm) = false := by
    rw [List.any_eq_false]
    intro d hd
    simp [hnew d hd]
  have hstate : (add_workflow nm now s).2
      = addWorkflowToConfig (normalizeName nm)
          { s with docs := s.docs ++
            [⟨normalizeName nm, pyTitle (dashToSpace nm), now, now, ""⟩] } := by
    simp [add_workflow, hany, hdir]
  have hres : (add_workflow nm now s).1 = .ok (normalizeName nm) := by
    simp [add_workflow, hany, hdir]
  refine ⟨hres, ?_, ?_⟩
  · have hwd : (add_workflow nm now s).2.workflowsDirExists = true := by
      rw [hstate, addWorkflowToConfig_wdir]
      exact hdir
    have hdocs : (add_workflow nm now s).2.docs = s.docs ++
        [⟨normalizeName nm, pyTitle (dashToSpace nm), now, now, ""⟩] := by
      rw [hstate, addWorkflowToConfig_docs]
    rw [list_workflows, if_neg (by simp [hwd])]
    rw [(List.perm_insertionSort wrecRel _).countP_eq]
    rw [List.countP_map, hdocs, List.countP_append]
    have h0 : List.countP ((fun w => w.file == normalizeName nm ++ ".md") ∘ mkWRec)
        s.docs = 0 := by
      rw [List.countP_eq_zero]
      intro d hd
      simp only [Function.comp_apply, mkWRec, beq_iff_eq]
      intro hEq
      exact hnew d hd (strAppend_cancel hEq)
    rw [h0]
    simp [mkWRec]
  · rw [hstate, configWorkflows_addWorkflowToConfig]
    have hcw : configWorkflows
        { s with docs := s.docs ++
          [⟨normalizeName nm, pyTitle (dashToSpace nm), now, now, ""⟩] }
        = configWorkflows s := rfl
    rw [hcw]
    by_cases hmem : normalizeName nm ∈ configWorkflows s
    · rw [if_pos hmem]
      have h1 : 0 < (configWorkflows s).count (normalizeName nm) :=
        List.count_pos_iff.mpr hmem
      omega
    · rw [if_neg hmem, List.count_append, List.count_eq_zero.mpr hmem]
      simp

/-- C6 witness: adding `User Authentication` to the concrete initialized
store. -/
theorem c6_witness :
    (add_workflow "User Authentication" "t1" exStoreInit).1
      = .ok (normalizeName "User Authentication") ∧
    (list_workflows (add_workflow "User Authentication" "t1" exStoreInit).2).countP
      (fun w => w.file == normalizeName "User Authentication" ++ ".md") = 1 ∧
    (configWorkflows (add_workflow "User Authentication" "t1" exStoreInit).2).count
      (normalizeName "User Authentication") = 1 :=
  c6_identifier_exactly_once exStoreInit "User Authentication" "t1" rfl
    (by decide) (by decide)

/-- C8: add_workflow is not idempotent: when two names normalize to the same
identifier and the first call succeeded, the second call fails with the
document-already-exists error, and the failed call leaves the whole store
state — document files and config index alike — unchanged. -/
theorem c8_second_add_fails (s : Store) (n1 n2 t1 t2 : String)
    (hnorm : normalizeName n1 = normalizeName n2)
    (hok : (add_workflow n1 t1 s).1 = .ok (normalizeName n1)) :
    (add_workflow n2 t2 (add_workflow n1 t1 s).2).1
      = .error (.docAlreadyExists (normalizeName n2)) ∧
    (add_workflow n2 t2 (add_workflow n1 t1 s).2).2 = (add_workflow n1 t1 s).2 := by
  by_cases h1 : s.docs.any (fun d => d.stem == normalizeName n1) = true
  · exfalso
    simp [add_workflow, h1] at hok
  · have h1f : s.docs.any (fun d => d.stem == normalizeName n1) = false := by
      cases hx : s.docs.any (fun d => d.stem == normalizeName n1) with
      | false => rfl
      | true => exact absurd hx h1
    cases hd : s.workflowsDirExists with
    | false =>
      exfalso
      simp [add_workflow, h1f, hd] at hok
    | true =>
      have hstate : (add_workflow n1 t1 s).2
          = addWorkflowToConfig (normalizeName n1)
              { s with docs := s.docs ++
                [⟨normalizeName n1, pyTitle (dashToSpace n1), t1, t1, ""⟩] } := by
        simp [add_workflow, h1f, hd]
      have hdocs : (add_workflow n1 t1 s).2.docs = s.docs ++
          [⟨normalizeName n1, pyTitle (dashToSpace n1), t1, t1, ""⟩] := by
        rw [hstate, addWorkflowToConfig_docs]
      have hany2 : (add_workflow n1 t1 s).2.docs.any
          (fun d => d.stem == normalizeName n2) = true := by
        rw [hdocs]
        refine List.any_eq_true.mpr
          ⟨⟨normalizeName n1, pyTitle (dashToSpace n1), t1, t1, ""⟩, ?_, ?_⟩
        · exact List.mem_append_right _ (List.mem_singleton_self _)
        · simp [hnorm]
      set s1 := (add_workflow n1 t1 s).2 with hs1
      have houter : add_workflow n2 t2 s1
          = (.error (.docAlreadyExists (normalizeName n2)), s1) := by
        simp only [add_workflow]
        rw [if_pos hany2]
      rw [houter]
      exact ⟨rfl, rfl⟩

/-- C8 witness: `My Flow` then `my flow` on the concrete initialized store. -/
theorem c8_witness :
    (add_workflow "my flow" "t2" (add_workflow "My Flow" "t1" exStoreInit).2).1
      = .error (.docAlreadyExists (normalizeName "my flow")) ∧
    (add_workflow "my flow" "t2" (add_workflow "My Flow" "t1" exStoreInit).2).2
      = (add_workflow "My Flow" "t1" exStoreInit).2 :=
  c8_second_add_fails exStoreInit "My Flow" "my flow" "t1" "t2" rfl rfl

end BusLog
